import Mathlib

/-!
Shallow embedding of the DMA giant-transfer engine and the Ethernet
TX/RX descriptor rings of this repository.

DMA model (from `embassy-stm32/src/dma/dma.rs`):
machine integers are modelled as `Nat` with explicit `% 2^w` where the
source performs wrapping register arithmetic; `usize` is 32 bits on the
target (Cortex-M).  Panics (`assert!`, `panic!`) are modelled by `Option`
results, `none` meaning the code panics.
-/

/-- Per-channel software state (`ChannelState` in `dma.rs`).  The
`AtomicWaker` is modelled by a single `woke` flag that records whether the
interrupt handler has signalled the registered completion waker. -/
structure ChannelState where
  giant_transfer_enabled : Bool
  remaining_chunks : Nat
  chunk_size : Nat
  transfer_len_bytes : Nat
  woke : Bool
deriving DecidableEq, Repr

/-- The `while data_len % chunks != 0 { chunks += 1 }` loop of
`ChannelState::enable_giant_transfer`.  The source loop carries no fuel;
the fuel here is only a structural-recursion device, and
`chunk_loop_spec` proves that the fuel used by `chunkCount` is never
exhausted, so this function is extensionally the source loop. -/
def chunkLoop (fuel : Nat) (dataLen c : Nat) : Nat :=
  match fuel with
  | 0 => c
  | fuel + 1 => if dataLen % c = 0 then c else chunkLoop fuel dataLen (c + 1)

/-- The chunk count chosen by `enable_giant_transfer`: the loop starts at
`data_len / 0xffff + 1` (a `chunk_estimate` of `data_len / 0xffff`,
then `chunks = chunk_estimate + 1`). -/
def chunkCount (dataLen : Nat) : Nat :=
  chunkLoop (dataLen + 1) dataLen (dataLen / 0xffff + 1)

/-- `ChannelState::enable_giant_transfer`.  Returns the updated state and
the `(M0AR, M1AR, ChunkSize)` triple; `none` models the
`assert!(data_len % 2 == 0)` panic.  `chunks - 2` is `usize` subtraction:
every caller guarantees `data_len > 0xffff`, whence `chunks ≥ 2` and the
truncated `Nat` subtraction agrees with the source. -/
def ChannelState.enable_giant_transfer (ch : ChannelState)
    (dataAddr dataLen lenBytes : Nat) : Option (ChannelState × Nat × Nat × Nat) :=
  if dataLen % 2 = 0 then
    let chunks := chunkCount dataLen
    let cs := dataLen / chunks
    let rem := chunks - 2
    some ({ ch with chunk_size := cs % 2 ^ 16,
                    remaining_chunks := rem % 2 ^ 32,
                    giant_transfer_enabled := true,
                    transfer_len_bytes := lenBytes % 2 ^ 8 },
          dataAddr,
          (dataAddr + (cs % 2 ^ 32) * (lenBytes % 2 ^ 32)) % 2 ^ 32,
          cs % 2 ^ 16)
  else none

/-- `ChannelState::dequeue_next_chunk`: decrements `remaining_chunks` and
returns the next chunk address `prev + 2 * chunk_size * transfer_len_bytes`
(u32 arithmetic). -/
def ChannelState.dequeue_next_chunk (ch : ChannelState) (prevMemPtr : Nat) :
    ChannelState × Nat :=
  ({ ch with remaining_chunks := ch.remaining_chunks - 1 },
   (prevMemPtr + 2 * ch.chunk_size * ch.transfer_len_bytes) % 2 ^ 32)

/-- `ChannelState::remaining_transfers` (u32 arithmetic). -/
def ChannelState.remaining_transfers (ch : ChannelState) (ndtr : Nat) : Nat :=
  (ndtr + ch.remaining_chunks * ch.chunk_size) % 2 ^ 32

/-- The hardware registers of one DMA stream that the driver touches,
together with the stream's two interrupt status flags.  `ct1` is true when
`CR.CT` selects MEMORY1; `cr.write(|_| ())` resets every CR field we
model. -/
structure DmaRegs where
  par : Nat
  m0ar : Nat
  m1ar : Nat
  ndtr : Nat
  en : Bool
  tcie : Bool
  teie : Bool
  dbm : Bool
  ct1 : Bool
  tcif : Bool
  teif : Bool
deriving DecidableEq, Repr

/-- `vals::Size` as used by the giant-transfer path. -/
inductive DmaSize where
  | bits8
  | bits16
  | bits32
deriving DecidableEq, Repr

/-- The `transfer_len_bytes` match in `start_giant_transfer`. -/
def DmaSize.bytes : DmaSize → Nat
  | .bits8 => 1
  | .bits16 => 2
  | .bits32 => 4

/-- `low_level_api::start_giant_transfer`: asserts `mem_len > 0xffff` and
`mem_len % 2 == 0`, clears status, calls `enable_giant_transfer`, then
programs PAR, M0AR, M1AR, NDTR and CR (double-buffer mode and enable). -/
def start_giant_transfer (ch : ChannelState) (periAddr memAddr memLen : Nat)
    (size : DmaSize) : Option (DmaRegs × ChannelState) :=
  if 0xffff < memLen ∧ memLen % 2 = 0 then
    match ch.enable_giant_transfer memAddr memLen size.bytes with
    | some (ch', m0, m1, cs) =>
        some ({ par := periAddr, m0ar := m0, m1ar := m1, ndtr := cs,
                en := true, tcie := true, teie := true, dbm := true,
                ct1 := false, tcif := false, teif := false }, ch')
    | none => none
  else none

/-- `low_level_api::get_remaining_transfers`. -/
def get_remaining_transfers (regs : DmaRegs) (ch : ChannelState) : Nat :=
  if ch.giant_transfer_enabled then ch.remaining_transfers regs.ndtr
  else regs.ndtr

/-- `low_level_api::on_irq_inner`.  `none` models the
`panic!("DMA: error on DMA ...")` fatal fault; otherwise returns the
updated registers/flags and channel state. -/
def on_irq_inner (regs : DmaRegs) (ch : ChannelState) :
    Option (DmaRegs × ChannelState) :=
  if regs.teif then
    if ch.giant_transfer_enabled = true ∧
        (regs.m0ar = 0xffffffff ∨ regs.m1ar = 0xffffffff) then
      some ({ regs with tcif := false, teif := false, en := false,
                        tcie := false, teie := false, dbm := false,
                        ct1 := false },
            { ch with giant_transfer_enabled := false, woke := true })
    else none
  else if ch.giant_transfer_enabled then
    if regs.tcif ∧ regs.tcie then
      let regs1 := { regs with tcif := false }
      let r := ch.remaining_chunks
      if r ≠ 0 then
        if r % 2 = 0 ∧ regs1.ct1 = true then
          let p := ch.dequeue_next_chunk regs1.m0ar
          some ({ regs1 with m0ar := p.2 }, p.1)
        else if regs1.ct1 = false then
          let p := ch.dequeue_next_chunk regs1.m1ar
          some ({ regs1 with m1ar := p.2 }, p.1)
        else
          some (regs1, ch)
      else
        if regs1.ct1 = true then some ({ regs1 with m0ar := 0xffffffff }, ch)
        else some ({ regs1 with m1ar := 0xffffffff }, ch)
    else some (regs, ch)
  else
    if regs.tcif ∧ regs.tcie then
      some ({ regs with en := false, tcie := false, teie := false,
                        dbm := false, ct1 := false },
            { ch with woke := true })
    else some (regs, ch)

/-! ### Properties of the chunk-count search loop -/

theorem chunk_loop_spec (dataLen : Nat) :
    ∀ fuel c, c ≤ dataLen → dataLen - c ≤ fuel →
      c ≤ chunkLoop fuel dataLen c ∧ chunkLoop fuel dataLen c ≤ dataLen ∧
      dataLen % chunkLoop fuel dataLen c = 0 ∧
      ∀ d, c ≤ d → dataLen % d = 0 → chunkLoop fuel dataLen c ≤ d := by
  intro fuel
  induction fuel with
  | zero =>
      intro c hc hf
      have hceq : c = dataLen := by omega
      subst hceq
      simp [chunkLoop]
      exact fun d hd _ => hd
  | succ fuel ih =>
      intro c hc hf
      by_cases h : dataLen % c = 0
      · simp [chunkLoop, h]
        exact ⟨hc, fun d hd _ => hd⟩
      · have hcne : c ≠ dataLen := by
          intro he; subst he; simp [Nat.mod_self] at h
        have hclt : c < dataLen := lt_of_le_of_ne hc hcne
        have := ih (c + 1) (by omega) (by omega)
        have hstep : chunkLoop (fuel + 1) dataLen c = chunkLoop fuel dataLen (c + 1) := by
          simp [chunkLoop, h]
        refine ⟨?_, ?_, ?_, ?_⟩
        · rw [hstep]; omega
        · rw [hstep]; exact this.2.1
        · rw [hstep]; exact this.2.2.1
        · rw [hstep]
          intro d hd hdm
          have hdne : c ≠ d := by
            intro he; subst he; exact h hdm
          exact this.2.2.2 d (by omega) hdm

theorem chunkCount_start_le (dataLen : Nat) (h : 1 ≤ dataLen) :
    dataLen / 0xffff + 1 ≤ dataLen := by
  rcases Nat.lt_or_ge dataLen 2 with h2 | h2
  · interval_cases dataLen
    · simp
  · have : dataLen / 0xffff ≤ dataLen / 2 :=
      Nat.div_le_div_left (by norm_num) (by norm_num)
    have : dataLen / 2 < dataLen := Nat.div_lt_self (by omega) (by norm_num)
    omega

theorem chunkCount_spec (dataLen : Nat) (h : 1 ≤ dataLen) :
    dataLen / 0xffff + 1 ≤ chunkCount dataLen ∧ chunkCount dataLen ≤ dataLen ∧
    dataLen % chunkCount dataLen = 0 ∧
    ∀ d, dataLen / 0xffff + 1 ≤ d → dataLen % d = 0 → chunkCount dataLen ≤ d := by
  have hstart := chunkCount_start_le dataLen h
  exact chunk_loop_spec dataLen (dataLen + 1) (dataLen / 0xffff + 1) hstart (by omega)

theorem chunkCount_pos (dataLen : Nat) (h : 1 ≤ dataLen) : 0 < chunkCount dataLen := by
  have := (chunkCount_spec dataLen h).1
  omega

/-- The chosen chunk size is strictly below the hardware limit: since the
chunk count exceeds `dataLen / 0xffff`, we get `dataLen < 0xffff * c`. -/
theorem chunkSize_lt_limit (dataLen : Nat) (h : 1 ≤ dataLen) :
    dataLen / chunkCount dataLen < 0xffff := by
  have hspec := chunkCount_spec dataLen h
  have hpos := chunkCount_pos dataLen h
  have hlt : dataLen < 0xffff * chunkCount dataLen := by
    have hmod := Nat.mod_lt dataLen (show 0 < 0xffff by norm_num)
    have hdiv := Nat.div_add_mod dataLen 0xffff
    have h1 : dataLen / 0xffff + 1 ≤ chunkCount dataLen := hspec.1
    nlinarith [hspec.1, Nat.div_add_mod dataLen 0xffff,
      Nat.mod_lt dataLen (show 0 < 0xffff by norm_num)]
  exact (Nat.div_lt_iff_lt_mul hpos).mpr (by linarith [hlt])

/-!
### TX descriptor ring (`embassy-stm32/src/eth/v1c/descriptors.rs`)

Descriptor words are u32 values; the descriptor array and buffer array of
`TDesRing<N>` are modelled as functions from slot index, with `n` the ring
size `N`.  A packet buffer (`PacketBuf`) is modelled by its address and
length.  The source file's `transmit` uses the constants `EMAC_TDES2_B1L`,
`EMAC_TDES2_IOC`, `EMAC_DES3_FD`, `EMAC_DES3_LD`, `EMAC_DES3_OWN` and
`EMAC_DES3_CTXT`, which are not defined anywhere under the sources
provided (the file does not compile as given).
-/

def TXDESC_0_OWN : Nat := 2 ^ 31
def TXDESC_0_IOC : Nat := 2 ^ 30
def TXDESC_0_FS : Nat := 2 ^ 28
def TXDESC_0_LS : Nat := 2 ^ 29
def TXDESC_0_TER : Nat := 2 ^ 21
def TXDESC_0_TCH : Nat := 2 ^ 20
def TXDESC_0_ES : Nat := 2 ^ 15
def TXDESC_1_TBS_MASK : Nat := 0xfff

/-- Modelled from the spec: the write-back-format buffer-1-length mask used
by `transmit`; missing from the provided sources (value taken from the
hardware's TDES2 B1L field). -/
def EMAC_TDES2_B1L : Nat := 0x3fff

/-- Modelled from the spec: the interrupt-on-completion flag written into
TDES2 by `transmit`; missing from the provided sources. -/
def EMAC_TDES2_IOC : Nat := 2 ^ 31

/-- Modelled from the spec: the first-segment flag of the TDES3/RDES3
write-back format; missing from the provided sources. -/
def EMAC_DES3_FD : Nat := 2 ^ 29

/-- Modelled from the spec: the last-segment flag of the TDES3/RDES3
write-back format; missing from the provided sources. -/
def EMAC_DES3_LD : Nat := 2 ^ 28

/-- Modelled from the spec: the ownership flag of the TDES3/RDES3
write-back format; missing from the provided sources. -/
def EMAC_DES3_OWN : Nat := 2 ^ 31

/-- Modelled from the spec: the context-descriptor flag of the TDES3/RDES3
write-back format; missing from the provided sources. -/
def EMAC_DES3_CTXT : Nat := 2 ^ 30

/-- One transmit descriptor (`TDes`): four u32 words. -/
structure TDes where
  tdes0 : Nat
  tdes1 : Nat
  tdes2 : Nat
  tdes3 : Nat
deriving DecidableEq, Repr

instance : Inhabited TDes := ⟨⟨0, 0, 0, 0⟩⟩

/-- A `PacketBuf`: its start address (`as_ptr() as u32`) and length. -/
structure Pkt where
  addr : Nat
  len : Nat
deriving DecidableEq, Repr

/-- `TDes::available`: `!((tdes0 & TXDESC_0_OWN) == TXDESC_0_OWN)`. -/
def TDes.available (d : TDes) : Bool :=
  ¬ (d.tdes0 &&& TXDESC_0_OWN = TXDESC_0_OWN)

/-- `TDesRing<N>` with its descriptor array, buffer slots and write
cursor `tdidx`. -/
structure TDesRing where
  n : Nat
  td : Nat → TDes
  buffers : Nat → Option Pkt
  tdidx : Nat

/-- `TDesRing::new()` followed by `TDesRing::init()`: all descriptors
zeroed, no buffers, cursor 0 (`init` also programs the ring-base/tail
registers of the MAC, which are outside this model). -/
def TDesRing.fresh (n : Nat) : TDesRing :=
  { n := n, td := fun _ => ⟨0, 0, 0, 0⟩, buffers := fun _ => none, tdidx := 0 }

/-- `TDesRing::available`: ownership test of the descriptor at the current
write cursor. -/
def TDesRing.available (r : TDesRing) : Bool :=
  (r.td r.tdidx).available

/-- Result of `TDesRing::transmit`: `Err(NoBufferAvailable)` (ring
unchanged), success with the new ring state, or a panic of the
`assert!(pkt_len as u32 <= EMAC_TDES2_B1L)`. -/
inductive TxOut where
  | panic
  | noBufferAvailable
  | ok (r : TDesRing)

/-- The ring state carried by a successful `transmit`, `none` otherwise. -/
def TxOut.ring : TxOut → Option TDesRing
  | .ok r => some r
  | _ => none

/-- `TDesRing::transmit` exactly as in the source: fails when
`available()` is false; otherwise writes `tdes0 := address`,
`tdes2 := len & B1L | IOC`, `tdes3 := FD | LD | OWN`, stores the buffer
handle and advances the cursor modulo N. -/
def TDesRing.transmit (r : TDesRing) (pkt : Pkt) : TxOut :=
  if ¬ r.available then .noBufferAvailable
  else if ¬ (pkt.len ≤ EMAC_TDES2_B1L) then .panic
  else
    let x := r.tdidx
    let d := r.td x
    let d1 : TDes := { tdes0 := pkt.addr,
                       tdes1 := d.tdes1,
                       tdes2 := (pkt.len &&& EMAC_TDES2_B1L) ||| EMAC_TDES2_IOC,
                       tdes3 := EMAC_DES3_FD ||| EMAC_DES3_LD ||| EMAC_DES3_OWN }
    .ok { r with td := fun j => if j = x then d1 else r.td j,
                 buffers := fun j => if j = x then some pkt else r.buffers j,
                 tdidx := (x + 1) % r.n }

/-- Result of `TDesRing::on_interrupt`: `Ok`/`Err(TransmissionError)` with
the new ring state, or the panic of `assert!(tdes3 & EMAC_DES3_CTXT == 0)`
(in the source this line reads a variable `tdes3` that is never bound; it
is embedded as the previous descriptor's `tdes3` word). -/
inductive TxIrqOut where
  | panic
  | ok (r : TDesRing)
  | transmissionError (r : TDesRing)

/-- `TDesRing::on_interrupt`: inspects the descriptor just before the
write cursor; if hardware still owns it (tdes0 OWN bit), no-op `Ok`;
otherwise releases the buffer and reports the descriptor's error flag. -/
def TDesRing.on_interrupt (r : TDesRing) : TxIrqOut :=
  let previous := (r.tdidx + r.n - 1) % r.n
  let d := r.td previous
  if ¬ (d.tdes0 &&& TXDESC_0_OWN = 0) then .ok r
  else if ¬ (d.tdes3 &&& EMAC_DES3_CTXT = 0) then .panic
  else
    let r1 := { r with buffers := fun j => if j = previous then none else r.buffers j }
    if ¬ (d.tdes0 &&& TXDESC_0_ES = 0) then .transmissionError r1
    else .ok r1

/-- Folds a sequence of `transmit` calls, stopping at the first call that
does not succeed. -/
def transmitFold (r : Option TDesRing) (ps : List Pkt) : Option TDesRing :=
  ps.foldl (fun acc p => acc.bind fun rr => (rr.transmit p).ring) r

/-!
### RX descriptor ring (`embassy-stm32/src/eth/v1c/rx_desc.rs`)

`RDesRing<N>` with `next_idx` (the read cursor) and `next_tail_idx`.
`PacketBox` buffers are modelled by their address; `pop_packet`'s
`PacketBuf` result by the pair (address, length).  Descriptor memory
addresses (the `RCH` chain pointers written by `RDes::setup`) are
abstracted by the successor slot index.
-/

def RXDESC_0_OWN : Nat := 2 ^ 31
def RXDESC_0_FS : Nat := 2 ^ 9
def RXDESC_0_LS : Nat := 2 ^ 8
def RXDESC_0_ES : Nat := 2 ^ 15
def RXDESC_1_RBS_MASK : Nat := 0xfff
def RXDESC_1_RCH : Nat := 2 ^ 14
def RXDESC_1_RER : Nat := 2 ^ 15

/-- One receive descriptor (`RDes` in `rx_desc.rs`): four u32 words. -/
structure RDes where
  rdes0 : Nat
  rdes1 : Nat
  rdes2 : Nat
  rdes3 : Nat
deriving DecidableEq, Repr

instance : Inhabited RDes := ⟨⟨0, 0, 0, 0⟩⟩

/-- `RDes::available`: descriptor not owned by the DMA engine. -/
def RDes.available (d : RDes) : Bool := d.rdes0 &&& RXDESC_0_OWN = 0

/-- `RDes::valid`: first and last segment, no error summary. -/
def RDes.valid (d : RDes) : Bool :=
  d.rdes0 &&& (RXDESC_0_FS ||| RXDESC_0_LS ||| RXDESC_0_ES) =
    RXDESC_0_FS ||| RXDESC_0_LS

/-- `RDesRing<N>`. -/
structure RDesRing where
  n : Nat
  descriptors : Nat → RDes
  buffers : Nat → Option Nat
  next_idx : Nat
  next_tail_idx : Nat

/-- `RDesRing::new()`: zeroed descriptors, empty buffer slots, both
cursors 0. -/
def RDesRing.fresh (n : Nat) : RDesRing :=
  { n := n, descriptors := fun _ => ⟨0, 0, 0, 0⟩, buffers := fun _ => none,
    next_idx := 0, next_tail_idx := 0 }

/-- The body of the allocation loop in `RDesRing::init` for one slot:
`set_buffer1(addr)` (rdes2), `set_owned()` (rdes0 OWN bit), store the
buffer handle. -/
def rxInstall (r : RDesRing) (i a : Nat) : RDesRing :=
  let d1 : RDes := { (r.descriptors i) with
                     rdes2 := a,
                     rdes0 := (r.descriptors i).rdes0 ||| RXDESC_0_OWN }
  { r with
    descriptors := fun j => if j = i then d1 else r.descriptors j,
    buffers := fun j => if j = i then some a else r.buffers j }

/-- The allocation loop of `RDesRing::init`: iterates slots `i`,
`i+1`, ... (`count` slots remain), allocating from the pool oracle
`alloc`; a failed allocation panics at slot 0 (`none`) and otherwise
breaks, returning the ring and the last populated index. -/
def rxInitGo (alloc : Nat → Option Nat) :
    Nat → Nat → Nat → RDesRing → Option (RDesRing × Nat)
  | 0, _, last, r => some (r, last)
  | count + 1, i, last, r =>
    match alloc i with
    | some a => rxInitGo alloc count (i + 1) i (rxInstall r i a)
    | none => if i = 0 then none else some (r, last)

/-- The chaining pass of `RDesRing::init` (`RDes::setup` for every
descriptor): every `rdes1` is overwritten with `RCH` (plus `RER` on the
last descriptor), `rdes3` points to the next descriptor (abstracted by
the successor index, 0 for the last). -/
def rxSetupChain (r : RDesRing) : RDesRing :=
  { r with descriptors := fun i =>
      if i + 1 < r.n then
        { (r.descriptors i) with rdes1 := RXDESC_1_RCH, rdes3 := i + 1 }
      else if i < r.n then
        { (r.descriptors i) with rdes1 := RXDESC_1_RCH ||| RXDESC_1_RER, rdes3 := 0 }
      else r.descriptors i }

/-- `RDesRing::init`: asserts `N > 1`, allocates one buffer per slot in
index order (panicking if even the first allocation fails), sets
`next_tail_idx` to one past the last populated slot, then chains the
descriptors.  `none` models the panics. -/
def RDesRing.init (n : Nat) (alloc : Nat → Option Nat) : Option RDesRing :=
  if n ≤ 1 then none
  else
    (rxInitGo alloc n 0 0 (RDesRing.fresh n)).map fun rl =>
      rxSetupChain { rl.1 with next_tail_idx := (rl.2 + 1) % n }

/-- The replenishment tail of `RDesRing::pop_packet`: if
`next_tail_idx != next_idx` and the pool yields a buffer, install it at
`next_tail_idx` (`set_buffer1`, store handle, `set_owned`) and advance
`next_tail_idx` modulo N. -/
def rxReplenish (r : RDesRing) (alloc : Option Nat) : RDesRing :=
  if r.next_tail_idx ≠ r.next_idx then
    match alloc with
    | some b =>
        let nt := r.next_tail_idx
        let d1 : RDes := { (r.descriptors nt) with
                           rdes2 := b,
                           rdes0 := (r.descriptors nt).rdes0 ||| RXDESC_0_OWN }
        { r with
          descriptors := fun j => if j = nt then d1 else r.descriptors j,
          buffers := fun j => if j = nt then some b else r.buffers j,
          next_tail_idx := (nt + 1) % r.n }
    | none => r
  else r

/-- The value returned by the read phase of `pop_packet`: the buffer
taken at `next_idx` with its length (`rdes1 & RBS` mask), provided the
descriptor is software-owned, the ring is not drained up to the tail, and
the descriptor's validity flags pass. -/
def rxReadResult (r : RDesRing) : Option (Nat × Nat) :=
  let d := r.descriptors r.next_idx
  if d.available = true ∧ r.next_idx ≠ (r.next_tail_idx + r.n - 1) % r.n then
    match r.buffers r.next_idx with
    | none => none
    | some a =>
        if d.valid = true then some (a, d.rdes1 &&& RXDESC_1_RBS_MASK)
        else none
  else none

/-- `RDesRing::pop_packet`.  `alloc` is the pool's answer to the single
`PacketBox::new` call of the replenishment phase.  `none` models the
`assert!(pkt.is_some())` panic; otherwise returns the new ring state and
the popped packet, if any. -/
def RDesRing.pop_packet (r : RDesRing) (alloc : Option Nat) :
    Option (RDesRing × Option (Nat × Nat)) :=
  let d := r.descriptors r.next_idx
  if d.available = true ∧ r.next_idx ≠ (r.next_tail_idx + r.n - 1) % r.n then
    match r.buffers r.next_idx with
    | none => none
    | some a =>
        let r1 := { r with
                    buffers := fun j => if j = r.next_idx then none else r.buffers j,
                    next_idx := (r.next_idx + 1) % r.n }
        some (rxReplenish r1 alloc,
              if d.valid = true then some (a, d.rdes1 &&& RXDESC_1_RBS_MASK)
              else none)
  else some (rxReplenish r alloc, none)

/-!
## Claim theorems
-/

/-- The chunk-count rule exactly as the specification words it: the
smallest chunk count `c ≥ ⌈L / 0xffff⌉` such that `L % c == 0`.  Written
from the spec (not the source) for comparison with `chunkCount`. -/
def specSmallestChunkCount (L c : Nat) : Prop :=
  L % c = 0 ∧ (L + 0xffff - 1) / 0xffff ≤ c ∧
  ∀ d, (L + 0xffff - 1) / 0xffff ≤ d → L % d = 0 → c ≤ d

/-- C1 (counterexample): for the even length `L = 131070 = 2 * 0xffff`,
which strictly exceeds the limit `0xffff`, `⌈L / 0xffff⌉ = 2` divides `L`,
so the claimed rule picks `c = 2`; the code starts its search at
`L / 0xffff + 1 = 3` and picks `c = 3`. -/
theorem c1_counterexample :
    ¬ specSmallestChunkCount 131070 (chunkCount 131070) := by
  intro h
  have h3 : chunkCount 131070 = 3 := by decide
  have := h.2.2 2 (by decide) (by decide)
  rw [h3] at this
  omega

/-- C1 (amended): for every even `L > 0xffff`, the chunk count chosen by
`enable_giant_transfer` is the smallest `c ≥ L / 0xffff + 1` (floor
division; equal to `⌈L / 0xffff⌉` exactly when `0xffff` does not divide
`L`) such that `L % c == 0`, and the chosen `chunk_size = L / c`
satisfies `chunk_size ≤ 0xffff`. -/
theorem c1_amended (L : Nat) (heven : L % 2 = 0) (hbig : 0xffff < L) :
    L % chunkCount L = 0 ∧
    L / 0xffff + 1 ≤ chunkCount L ∧
    (∀ d, L / 0xffff + 1 ≤ d → L % d = 0 → chunkCount L ≤ d) ∧
    L / chunkCount L ≤ 0xffff := by
  have h1 : 1 ≤ L := by omega
  have hs := chunkCount_spec L h1
  exact ⟨hs.2.2.1, hs.1, hs.2.2.2, le_of_lt (chunkSize_lt_limit L h1)⟩

/-- C1 (amended, witness): the amended rule evaluated at `L = 131070`
(the search starts at 3, which divides 131070). -/
theorem c1_amended_witness :
    131070 % chunkCount 131070 = 0 ∧
    131070 / 0xffff + 1 ≤ chunkCount 131070 ∧
    (∀ d, 131070 / 0xffff + 1 ≤ d → 131070 % d = 0 → chunkCount 131070 ≤ d) ∧
    131070 / chunkCount 131070 ≤ 0xffff :=
  c1_amended 131070 (by decide) (by decide)

/-- C10: for every even `data_len ≥ 2` the divisor-search loop of
`enable_giant_transfer` terminates: the candidate starts at
`data_len / 0xffff + 1`, increases by one per iteration, and the result
never exceeds `data_len` (which divides itself), so
`enable_giant_transfer` returns a value under the evenness
precondition. -/
theorem c10_loop_terminates (L : Nat) (heven : L % 2 = 0) (h2 : 2 ≤ L) :
    (∀ ch a b, (ChannelState.enable_giant_transfer ch a L b).isSome = true) ∧
    L / 0xffff + 1 ≤ chunkCount L ∧ chunkCount L ≤ L ∧ L % chunkCount L = 0 := by
  have hs := chunkCount_spec L (by omega)
  refine ⟨?_, hs.1, hs.2.1, hs.2.2.1⟩
  intro ch a b
  simp [ChannelState.enable_giant_transfer, heven]

/-- C10 (witness): evaluated at `data_len = 200000`. -/
theorem c10_loop_terminates_witness :
    (∀ ch a b, (ChannelState.enable_giant_transfer ch a 200000 b).isSome = true) ∧
    200000 / 0xffff + 1 ≤ chunkCount 200000 ∧ chunkCount 200000 ≤ 200000 ∧
    200000 % chunkCount 200000 = 0 :=
  c10_loop_terminates 200000 (by decide) (by decide)

/-- C3: `start_giant_transfer` on an even `L > 0xffff` programs M0AR with
the base address, M1AR with `base + chunk_size * element_size`, NDTR with
`chunk_size`, stores `chunk_size` and `remaining_chunks = c - 2`, and
enables giant-transfer mode (`L < 2^32` because `usize` is 32 bits on the
target); in particular `L = 200000` yields `c = 4`,
`chunk_size = 50000`, `remaining_chunks = 2`. -/
theorem c3_start_giant_transfer :
    (∀ (ch : ChannelState) (pa ma L : Nat) (sz : DmaSize),
      L % 2 = 0 → 0xffff < L → L < 2 ^ 32 →
      start_giant_transfer ch pa ma L sz =
        some ({ par := pa, m0ar := ma,
                m1ar := (ma + L / chunkCount L * sz.bytes) % 2 ^ 32,
                ndtr := L / chunkCount L, en := true, tcie := true,
                teie := true, dbm := true, ct1 := false, tcif := false,
                teif := false },
              { ch with chunk_size := L / chunkCount L,
                        remaining_chunks := chunkCount L - 2,
                        giant_transfer_enabled := true,
                        transfer_len_bytes := sz.bytes })) ∧
    chunkCount 200000 = 4 ∧ 200000 / chunkCount 200000 = 50000 ∧
    chunkCount 200000 - 2 = 2 := by
  refine ⟨?_, by decide, by decide, by decide⟩
  intro ch pa ma L sz heven hbig hword
  have h1 : 1 ≤ L := by omega
  have hcs : L / chunkCount L < 0xffff := chunkSize_lt_limit L h1
  have hcc := chunkCount_spec L h1
  have hcs16 : L / chunkCount L % 2 ^ 16 = L / chunkCount L :=
    Nat.mod_eq_of_lt (by omega)
  have hcs32 : L / chunkCount L % 2 ^ 32 = L / chunkCount L :=
    Nat.mod_eq_of_lt (by omega)
  have hrem : (chunkCount L - 2) % 2 ^ 32 = chunkCount L - 2 :=
    Nat.mod_eq_of_lt (by omega)
  have hbytes : sz.bytes % 2 ^ 8 = sz.bytes := by cases sz <;> decide
  have hbytes32 : sz.bytes % 2 ^ 32 = sz.bytes := by cases sz <;> decide
  obtain ⟨hle1, hle2, hmod, hmin⟩ := hcc
  simp [start_giant_transfer, ChannelState.enable_giant_transfer, heven,
    hbig, hcs16, hcs32, hrem, hbytes, hbytes32]
  refine ⟨⟨?_, by omega⟩, by omega, by omega, ?_⟩
  · rw [Nat.mod_eq_of_lt (show L / chunkCount L < 4294967296 by omega),
      Nat.mod_eq_of_lt (show sz.bytes < 4294967296 by cases sz <;> decide)]
  · cases sz <;> decide

/-- C3 (witness): a giant transfer of 200000 half-words from base address
`0x24000000`. -/
theorem c3_start_giant_transfer_witness :
    start_giant_transfer
        { giant_transfer_enabled := false, remaining_chunks := 0,
          chunk_size := 0, transfer_len_bytes := 0, woke := false }
        0x40011004 0x24000000 200000 DmaSize.bits16 =
      some ({ par := 0x40011004, m0ar := 0x24000000,
              m1ar := (0x24000000 + 200000 / chunkCount 200000 * DmaSize.bits16.bytes) % 2 ^ 32,
              ndtr := 200000 / chunkCount 200000, en := true, tcie := true,
              teie := true, dbm := true, ct1 := false, tcif := false,
              teif := false },
            { giant_transfer_enabled := true,
              remaining_chunks := chunkCount 200000 - 2,
              chunk_size := 200000 / chunkCount 200000,
              transfer_len_bytes := DmaSize.bits16.bytes, woke := false }) :=
  c3_start_giant_transfer.1
    { giant_transfer_enabled := false, remaining_chunks := 0,
      chunk_size := 0, transfer_len_bytes := 0, woke := false }
    0x40011004 0x24000000 200000 DmaSize.bits16 (by decide) (by decide) (by decide)

/-- C8: `remaining_transfers()` returns the live hardware counter `ndtr`
when no giant transfer is active, and `ndtr + remaining_chunks *
chunk_size` (u32 arithmetic; stated below the u32 range) while a giant
transfer is active. -/
theorem c8_remaining_transfers (regs : DmaRegs) (ch : ChannelState) :
    (ch.giant_transfer_enabled = true →
      regs.ndtr + ch.remaining_chunks * ch.chunk_size < 2 ^ 32 →
      get_remaining_transfers regs ch =
        regs.ndtr + ch.remaining_chunks * ch.chunk_size) ∧
    (ch.giant_transfer_enabled = false →
      get_remaining_transfers regs ch = regs.ndtr) := by
  constructor
  · intro hg hov
    simp [get_remaining_transfers, hg, ChannelState.remaining_transfers]
    omega
  · intro hg
    simp [get_remaining_transfers, hg]

/-- C8 (witness): a giant transfer with `ndtr = 30000`,
`remaining_chunks = 2`, `chunk_size = 50000`, and the non-giant case. -/
theorem c8_remaining_transfers_witness :
    get_remaining_transfers
        { par := 0, m0ar := 0, m1ar := 0, ndtr := 30000, en := true,
          tcie := true, teie := true, dbm := true, ct1 := false,
          tcif := false, teif := false }
        { giant_transfer_enabled := true, remaining_chunks := 2,
          chunk_size := 50000, transfer_len_bytes := 2, woke := false } =
      30000 + 2 * 50000 :=
  (c8_remaining_transfers _ _).1 rfl (by decide)

/-- C4: on a transfer-error interrupt, if a giant transfer is active and
one of the two buffer-address registers holds the sentinel `0xffffffff`,
the handler clears both status flags, disables the channel, clears the
giant-transfer state and wakes the completion signal without fault; in
every other error case it panics. -/
theorem c4_error_interrupt (regs : DmaRegs) (ch : ChannelState)
    (herr : regs.teif = true) :
    (ch.giant_transfer_enabled = true →
      (regs.m0ar = 0xffffffff ∨ regs.m1ar = 0xffffffff) →
      on_irq_inner regs ch =
        some ({ regs with tcif := false, teif := false, en := false,
                          tcie := false, teie := false, dbm := false,
                          ct1 := false },
              { ch with giant_transfer_enabled := false, woke := true })) ∧
    (¬ (ch.giant_transfer_enabled = true ∧
        (regs.m0ar = 0xffffffff ∨ regs.m1ar = 0xffffffff)) →
      on_irq_inner regs ch = none) := by
  constructor
  · intro hg hsent
    simp [on_irq_inner, herr, hg, hsent]
  · intro hnot
    simp [on_irq_inner, herr, hnot]

/-- C4 (witness): error interrupt with the sentinel in M1AR during a
giant transfer ends the transfer and wakes the caller. -/
theorem c4_error_interrupt_witness :
    on_irq_inner
        { par := 1, m0ar := 0x20000000, m1ar := 0xffffffff, ndtr := 0,
          en := true, tcie := true, teie := true, dbm := true, ct1 := true,
          tcif := false, teif := true }
        { giant_transfer_enabled := true, remaining_chunks := 0,
          chunk_size := 50000, transfer_len_bytes := 2, woke := false } =
      some ({ par := 1, m0ar := 0x20000000, m1ar := 0xffffffff, ndtr := 0,
              en := false, tcie := false, teie := false, dbm := false,
              ct1 := false, tcif := false, teif := false },
            { giant_transfer_enabled := false, remaining_chunks := 0,
              chunk_size := 50000, transfer_len_bytes := 2, woke := true }) :=
  (c4_error_interrupt _ _ rfl).1 rfl (Or.inr rfl)

/-- C2 (counterexample): a reachable completion interrupt (tcif set, teif
clear) during an active giant transfer that neither decrements
`remaining_chunks` nor reprograms an address register: giant transfer of
`L = 196606` bytes (`c = chunkCount 196606 = 197`, `chunk_size = 998`),
first chunk just completed, so `remaining_chunks = 195` (odd) and the
hardware's current target is memory 1.  The handler only clears the
flag. -/
theorem c2_counterexample :
    on_irq_inner
        { par := 1, m0ar := 0x20000000, m1ar := 0x200007cc, ndtr := 998,
          en := true, tcie := true, teie := true, dbm := true, ct1 := true,
          tcif := true, teif := false }
        { giant_transfer_enabled := true, remaining_chunks := 195,
          chunk_size := 998, transfer_len_bytes := 2, woke := false } =
      some ({ par := 1, m0ar := 0x20000000, m1ar := 0x200007cc, ndtr := 998,
              en := true, tcie := true, teie := true, dbm := true,
              ct1 := true, tcif := false, teif := false },
            { giant_transfer_enabled := true, remaining_chunks := 195,
              chunk_size := 998, transfer_len_bytes := 2, woke := false }) ∧
    chunkCount 196606 = 197 ∧ 196606 / 197 = 998 ∧ 197 - 2 = 195 := by
  constructor
  · decide
  · exact ⟨by decide, by decide, by decide⟩

/-- C2 (amended): on a completion interrupt (tcif set and enabled, teif
clear) during an active giant transfer, the handler acts only when either
`remaining_chunks` is even and the current target is memory 1 (then it
decrements and reprograms M0AR to `m0ar + 2 * chunk_size *
element_size`), or the current target is memory 0 (then it decrements and
reprograms M1AR likewise); when `remaining_chunks` is odd and the current
target is memory 1 it changes nothing but the flag.  The sentinel
`0xffffffff` is written into the retired slot's address register exactly
in the `remaining_chunks = 0` case. -/
theorem c2_completion_interrupt (regs : DmaRegs) (ch : ChannelState)
    (hte : regs.teif = false) (htc : regs.tcif = true) (hie : regs.tcie = true)
    (hg : ch.giant_transfer_enabled = true) :
    (ch.remaining_chunks ≠ 0 → ch.remaining_chunks % 2 = 0 → regs.ct1 = true →
      on_irq_inner regs ch =
        some ({ regs with tcif := false,
                          m0ar := (regs.m0ar + 2 * ch.chunk_size * ch.transfer_len_bytes) % 2 ^ 32 },
              { ch with remaining_chunks := ch.remaining_chunks - 1 })) ∧
    (ch.remaining_chunks ≠ 0 → regs.ct1 = false →
      on_irq_inner regs ch =
        some ({ regs with tcif := false,
                          m1ar := (regs.m1ar + 2 * ch.chunk_size * ch.transfer_len_bytes) % 2 ^ 32 },
              { ch with remaining_chunks := ch.remaining_chunks - 1 })) ∧
    (ch.remaining_chunks ≠ 0 → ch.remaining_chunks % 2 = 1 → regs.ct1 = true →
      on_irq_inner regs ch = some ({ regs with tcif := false }, ch)) ∧
    (ch.remaining_chunks = 0 → regs.ct1 = true →
      on_irq_inner regs ch =
        some ({ regs with tcif := false, m0ar := 0xffffffff }, ch)) ∧
    (ch.remaining_chunks = 0 → regs.ct1 = false →
      on_irq_inner regs ch =
        some ({ regs with tcif := false, m1ar := 0xffffffff }, ch)) := by
  refine ⟨?_, ?_, ?_, ?_, ?_⟩
  · intro hr he hct
    simp [on_irq_inner, hte, htc, hie, hg, hr, he, hct,
      ChannelState.dequeue_next_chunk]
  · intro hr hct
    simp [on_irq_inner, hte, htc, hie, hg, hr, hct,
      ChannelState.dequeue_next_chunk]
  · intro hr he hct
    simp [on_irq_inner, hte, htc, hie, hg, hr, he, hct,
      ChannelState.dequeue_next_chunk]
  · intro hr hct
    simp [on_irq_inner, hte, htc, hie, hg, hr, hct]
  · intro hr hct
    simp [on_irq_inner, hte, htc, hie, hg, hr, hct]

/-- C2 (amended, witness): completion interrupt with two remaining chunks
(even), current target memory 1: M0AR advances by
`2 * 50000 * 2 = 200000` bytes and `remaining_chunks` drops to 1. -/
theorem c2_completion_interrupt_witness :
    on_irq_inner
        { par := 1, m0ar := 0x24000000, m1ar := 0x24030d40, ndtr := 50000,
          en := true, tcie := true, teie := true, dbm := true, ct1 := true,
          tcif := true, teif := false }
        { giant_transfer_enabled := true, remaining_chunks := 2,
          chunk_size := 50000, transfer_len_bytes := 2, woke := false } =
      some ({ par := 1, m0ar := (0x24000000 + 2 * 50000 * 2) % 2 ^ 32,
              m1ar := 0x24030d40, ndtr := 50000, en := true, tcie := true,
              teie := true, dbm := true, ct1 := true, tcif := false,
              teif := false },
            { giant_transfer_enabled := true, remaining_chunks := 2 - 1,
              chunk_size := 50000, transfer_len_bytes := 2, woke := false }) :=
  (c2_completion_interrupt _ _ rfl rfl rfl rfl).1 (by decide) (by decide) rfl

/-- C5 (counterexample): on a freshly initialized ring of size 4 a
`transmit` of a packet at SRAM address `0x20000000` succeeds, and
`available()` returns true immediately afterwards (the cursor advanced to
a descriptor whose `tdes0` is still 0), contradicting the claim that
`available()` is false after every successful transmit. -/
theorem c5_counterexample :
    (((TDesRing.fresh 4).transmit ⟨0x20000000, 64⟩).ring).isSome = true ∧
    (((TDesRing.fresh 4).transmit ⟨0x20000000, 64⟩).ring).map TDesRing.available =
      some true := by
  constructor
  · decide
  · decide

/-- C5 (amended): after a successful `transmit` the write cursor advances
by one modulo N; the transmitted slot's ownership-to-hardware flag is
recorded in its `tdes3` word (`FD | LD | OWN`) and its `tdes0` word is
overwritten with the packet's buffer address, while `available()`
inspects only bit 31 of the `tdes0` word of the descriptor at the new
cursor — so `available()` is not in general false after a successful
transmit (on a freshly initialized ring it is true). -/
theorem c5_transmit_available (r : TDesRing) (p : Pkt) (r1 : TDesRing)
    (h : (r.transmit p).ring = some r1) :
    r1.tdidx = (r.tdidx + 1) % r.n ∧
    (r1.td r.tdidx).tdes3 = (EMAC_DES3_FD ||| EMAC_DES3_LD ||| EMAC_DES3_OWN) ∧
    (r1.td r.tdidx).tdes0 = p.addr ∧
    r1.buffers r.tdidx = some p ∧
    (r1.available = true ↔
      ¬ ((r1.td r1.tdidx).tdes0 &&& TXDESC_0_OWN = TXDESC_0_OWN)) := by
  unfold TDesRing.transmit at h
  by_cases h1 : r.available = true
  · by_cases h2 : p.len ≤ EMAC_TDES2_B1L
    · simp only [h1, not_true_eq_false, if_false, h2, not_le, if_true,
        TxOut.ring, if_neg, Option.some.injEq] at h
      subst h
      refine ⟨rfl, by simp, by simp, by simp, ?_⟩
      simp [TDesRing.available, TDes.available]
    · have h2f : EMAC_TDES2_B1L < p.len := lt_of_not_le h2
      simp [h1, h2f, TxOut.ring] at h
  · have h1f : r.available = false := by simpa using h1
    simp [h1f, TxOut.ring] at h

/-- The ring state after one successful transmit on a fresh ring of size
4 (the concrete instance used to witness `c5_transmit_available`). -/
def txAfterOne : TDesRing :=
  (((TDesRing.fresh 4).transmit ⟨0x20000000, 64⟩).ring).getD (TDesRing.fresh 4)

/-- C5 (amended, witness): the amended statement evaluated on a fresh
ring of size 4 and a 64-byte packet at `0x20000000`. -/
theorem c5_transmit_available_witness :
    txAfterOne.tdidx = ((TDesRing.fresh 4).tdidx + 1) % (TDesRing.fresh 4).n ∧
    (txAfterOne.td (TDesRing.fresh 4).tdidx).tdes3 =
      (EMAC_DES3_FD ||| EMAC_DES3_LD ||| EMAC_DES3_OWN) ∧
    (txAfterOne.td (TDesRing.fresh 4).tdidx).tdes0 = (⟨0x20000000, 64⟩ : Pkt).addr ∧
    txAfterOne.buffers (TDesRing.fresh 4).tdidx = some ⟨0x20000000, 64⟩ ∧
    (txAfterOne.available = true ↔
      ¬ ((txAfterOne.td txAfterOne.tdidx).tdes0 &&& TXDESC_0_OWN = TXDESC_0_OWN)) :=
  c5_transmit_available (TDesRing.fresh 4) ⟨0x20000000, 64⟩ txAfterOne rfl

/-- C6: on a ring of size 4 with all slots initially software-owned, four
consecutive `transmit` calls succeed — but so does a fifth: `transmit`
marks ownership in `tdes3` while `available()` tests bit 31 of `tdes0`,
which after wrap-around holds the packet's SRAM buffer address
(bit 31 clear), so the claimed `NoBufferAvailable` on the fifth call
never materialises. -/
theorem c6_five_transmits :
    (transmitFold (some (TDesRing.fresh 4))
        (List.replicate 4 ⟨0x20000000, 64⟩)).map TDesRing.available = some true ∧
    (transmitFold (some (TDesRing.fresh 4))
        (List.replicate 5 ⟨0x20000000, 64⟩)).isSome = true := by
  constructor
  · decide
  · decide

/-! ### RX ring lemmas -/

theorem rxReplenish_next_idx (r : RDesRing) (alloc : Option Nat) :
    (rxReplenish r alloc).next_idx = r.next_idx := by
  unfold rxReplenish
  split
  · cases alloc <;> rfl
  · rfl

theorem rxReplenish_none_or_eq (r : RDesRing) (alloc : Option Nat)
    (h : alloc = none ∨ r.next_tail_idx = r.next_idx) :
    rxReplenish r alloc = r := by
  rcases h with h | h
  · subst h
    unfold rxReplenish
    split <;> rfl
  · unfold rxReplenish
    rw [if_neg (by simp [h])]

theorem rxReplenish_some_ne (r : RDesRing) (b : Nat)
    (h : r.next_tail_idx ≠ r.next_idx) :
    rxReplenish r (some b) =
      { r with
        descriptors := fun j =>
          if j = r.next_tail_idx then
            { (r.descriptors r.next_tail_idx) with
              rdes2 := b,
              rdes0 := (r.descriptors r.next_tail_idx).rdes0 ||| RXDESC_0_OWN }
          else r.descriptors j,
        buffers := fun j => if j = r.next_tail_idx then some b else r.buffers j,
        next_tail_idx := (r.next_tail_idx + 1) % r.n } := by
  unfold rxReplenish
  rw [if_pos h]


/-- C7: `pop_packet` replenishes — installs the freshly allocated buffer
at `next_tail_idx`, marks that descriptor hardware-owned and advances
`next_tail_idx` modulo N — exactly when `next_tail_idx` differs from the
post-read read cursor and the pool allocation succeeds; when the
allocation fails or `next_tail_idx` equals the read cursor, the
descriptors and `next_tail_idx` (and every buffer slot other than the one
consumed by the read) are unchanged and the call still returns its read
result; `next_tail_idx` only ever advances from a position distinct from
the read cursor. -/
theorem c7_pop_packet_replenish (r : RDesRing) (alloc : Option Nat)
    (r1 : RDesRing) (res : Option (Nat × Nat))
    (h : r.pop_packet alloc = some (r1, res)) :
    res = rxReadResult r ∧
    (∀ b, alloc = some b → r.next_tail_idx ≠ r1.next_idx →
      r1.next_tail_idx = (r.next_tail_idx + 1) % r.n ∧
      r1.buffers r.next_tail_idx = some b ∧
      (r1.descriptors r.next_tail_idx).rdes0 =
        (r.descriptors r.next_tail_idx).rdes0 ||| RXDESC_0_OWN ∧
      (r1.descriptors r.next_tail_idx).rdes2 = b) ∧
    ((alloc = none ∨ r.next_tail_idx = r1.next_idx) →
      r1.next_tail_idx = r.next_tail_idx ∧ r1.descriptors = r.descriptors ∧
      ∀ j, j ≠ r.next_idx → r1.buffers j = r.buffers j) ∧
    (r1.next_tail_idx ≠ r.next_tail_idx → r.next_tail_idx ≠ r1.next_idx) := by
  by_cases hread : (r.descriptors r.next_idx).available = true ∧
      r.next_idx ≠ (r.next_tail_idx + r.n - 1) % r.n
  · rcases hbuf : r.buffers r.next_idx with _ | a
    · rw [RDesRing.pop_packet, if_pos hread, hbuf] at h
      cases h
    · rw [RDesRing.pop_packet, if_pos hread, hbuf] at h
      simp only [Option.some.injEq, Prod.mk.injEq] at h
      obtain ⟨hr1, hres⟩ := h
      subst hr1
      subst hres
      set rmid : RDesRing :=
        { r with
          buffers := fun j => if j = r.next_idx then none else r.buffers j,
          next_idx := (r.next_idx + 1) % r.n } with hrmid
      refine ⟨?_, ?_, ?_, ?_⟩
      · rw [rxReadResult, if_pos hread, hbuf]
      · intro b hb hne
        subst hb
        rw [rxReplenish_next_idx] at hne
        rw [rxReplenish_some_ne rmid b hne]
        refine ⟨rfl, by simp, by simp, by simp⟩
      · intro hcase
        have hrepl : rxReplenish rmid alloc = rmid := by
          apply rxReplenish_none_or_eq
          rcases hcase with hc | hc
          · exact Or.inl hc
          · right
            rw [rxReplenish_next_idx] at hc
            exact hc
        rw [hrepl]
        refine ⟨rfl, rfl, ?_⟩
        intro j hj
        simp [hrmid, hj]
      · intro hchanged heq
        rw [rxReplenish_next_idx] at heq
        apply hchanged
        rw [rxReplenish_none_or_eq rmid alloc (Or.inr heq)]
  · rw [RDesRing.pop_packet, if_neg hread] at h
    simp only [Option.some.injEq, Prod.mk.injEq] at h
    obtain ⟨hr1, hres⟩ := h
    subst hr1
    subst hres
    refine ⟨?_, ?_, ?_, ?_⟩
    · rw [rxReadResult, if_neg hread]
    · intro b hb hne
      subst hb
      rw [rxReplenish_next_idx] at hne
      rw [rxReplenish_some_ne r b hne]
      refine ⟨rfl, by simp, by simp, by simp⟩
    · intro hcase
      have hrepl : rxReplenish r alloc = r := by
        apply rxReplenish_none_or_eq
        rcases hcase with hc | hc
        · exact Or.inl hc
        · right
          rw [rxReplenish_next_idx] at hc
          exact hc
      rw [hrepl]
      exact ⟨rfl, rfl, fun j _ => rfl⟩
    · intro hchanged heq
      rw [rxReplenish_next_idx] at heq
      apply hchanged
      rw [rxReplenish_none_or_eq r alloc (Or.inr heq)]

/-- A concrete RX ring used to witness `c7_pop_packet_replenish`: size 4,
every descriptor software-owned and valid (FS and LS set, length 64),
every slot holding a buffer, read cursor 0, `next_tail_idx` 2. -/
def rxPopDemo : RDesRing :=
  { n := 4,
    descriptors := fun _ => ⟨RXDESC_0_FS ||| RXDESC_0_LS, 64, 0x30000000, 0⟩,
    buffers := fun _ => some 0x30000000,
    next_idx := 0, next_tail_idx := 2 }

/-- The state and result of `pop_packet` on `rxPopDemo` with a successful
allocation of a buffer at `0x30001000`. -/
def rxPopDemoOut : RDesRing × Option (Nat × Nat) :=
  (rxPopDemo.pop_packet (some 0x30001000)).getD (rxPopDemo, none)

/-- C7 (witness): the replenishment characterisation evaluated on
`rxPopDemo`. -/
theorem c7_pop_packet_replenish_witness :
    rxPopDemoOut.2 = rxReadResult rxPopDemo ∧
    (∀ b, (some 0x30001000 : Option Nat) = some b →
      rxPopDemo.next_tail_idx ≠ rxPopDemoOut.1.next_idx →
      rxPopDemoOut.1.next_tail_idx = (rxPopDemo.next_tail_idx + 1) % rxPopDemo.n ∧
      rxPopDemoOut.1.buffers rxPopDemo.next_tail_idx = some b ∧
      (rxPopDemoOut.1.descriptors rxPopDemo.next_tail_idx).rdes0 =
        (rxPopDemo.descriptors rxPopDemo.next_tail_idx).rdes0 ||| RXDESC_0_OWN ∧
      (rxPopDemoOut.1.descriptors rxPopDemo.next_tail_idx).rdes2 = b) ∧
    (((some 0x30001000 : Option Nat) = none ∨
        rxPopDemo.next_tail_idx = rxPopDemoOut.1.next_idx) →
      rxPopDemoOut.1.next_tail_idx = rxPopDemo.next_tail_idx ∧
      rxPopDemoOut.1.descriptors = rxPopDemo.descriptors ∧
      ∀ j, j ≠ rxPopDemo.next_idx →
        rxPopDemoOut.1.buffers j = rxPopDemo.buffers j) ∧
    (rxPopDemoOut.1.next_tail_idx ≠ rxPopDemo.next_tail_idx →
      rxPopDemo.next_tail_idx ≠ rxPopDemoOut.1.next_idx) :=
  c7_pop_packet_replenish rxPopDemo (some 0x30001000)
    rxPopDemoOut.1 rxPopDemoOut.2 rfl

/-! ### RX ring initialisation lemmas -/

/-- The net effect of `count` successful iterations of the `init`
allocation loop starting at slot `i`. -/
def rxInstallAll (alloc : Nat → Option Nat) : Nat → Nat → RDesRing → RDesRing
  | 0, _, r => r
  | count + 1, i, r => rxInstallAll alloc count (i + 1) (rxInstall r i ((alloc i).getD 0))

theorem rxInstallAll_n (alloc : Nat → Option Nat) :
    ∀ count i r, (rxInstallAll alloc count i r).n = r.n := by
  intro count
  induction count with
  | zero => intro i r; rfl
  | succ count ih => intro i r; exact ih (i + 1) _

theorem rxInstallAll_next_tail_idx (alloc : Nat → Option Nat) :
    ∀ count i r, (rxInstallAll alloc count i r).next_tail_idx = r.next_tail_idx := by
  intro count
  induction count with
  | zero => intro i r; rfl
  | succ count ih => intro i r; exact ih (i + 1) _

theorem rxInstallAll_buffers (alloc : Nat → Option Nat) :
    ∀ count i r j, (rxInstallAll alloc count i r).buffers j =
      if i ≤ j ∧ j < i + count then some ((alloc j).getD 0) else r.buffers j := by
  intro count
  induction count with
  | zero =>
      intro i r j
      rw [if_neg (by omega)]
      rfl
  | succ count ih =>
      intro i r j
      rw [rxInstallAll, ih]
      by_cases hj : j = i
      · subst hj
        rw [if_neg (by omega), if_pos (by omega)]
        simp [rxInstall]
      · by_cases hrange : i + 1 ≤ j ∧ j < i + 1 + count
        · rw [if_pos hrange, if_pos (by omega)]
        · rw [if_neg hrange, if_neg (by omega)]
          simp [rxInstall, hj]

theorem rxInitGo_all (alloc : Nat → Option Nat) :
    ∀ count i last r,
      (∀ j, i ≤ j → j < i + count → (alloc j).isSome = true) →
      rxInitGo alloc count i last r =
        some (rxInstallAll alloc count i r, if count = 0 then last else i + count - 1) := by
  intro count
  induction count with
  | zero => intro i last r _; rfl
  | succ count ih =>
      intro i last r hall
      have hi : (alloc i).isSome = true := hall i le_rfl (by omega)
      rcases ha : alloc i with _ | a
      · rw [ha] at hi; cases hi
      · rw [rxInitGo, ha]
        show rxInitGo alloc count (i + 1) i (rxInstall r i a) = _
        rw [ih (i + 1) i (rxInstall r i a) (fun j hj1 hj2 => hall j (by omega) (by omega))]
        have h1 : rxInstallAll alloc (count + 1) i r =
            rxInstallAll alloc count (i + 1) (rxInstall r i ((alloc i).getD 0)) := rfl
        have h2 : (if count = 0 then i else i + 1 + count - 1) = i + (count + 1) - 1 := by
          split <;> omega
        rw [h1, ha, h2]
        simp

theorem rxInitGo_fail_zero (alloc : Nat → Option Nat) (count last : Nat)
    (r : RDesRing) (hc : 1 ≤ count) (h0 : alloc 0 = none) :
    rxInitGo alloc count 0 last r = none := by
  rcases count with _ | count
  · omega
  · rw [rxInitGo, h0]
    rfl

theorem rxInitGo_fail (alloc : Nat → Option Nat) :
    ∀ count i last r k, i ≤ k → k < i + count → 1 ≤ k →
      (∀ j, i ≤ j → j < k → (alloc j).isSome = true) → alloc k = none →
      rxInitGo alloc count i last r =
        some (rxInstallAll alloc (k - i) i r, if k = i then last else k - 1) := by
  intro count
  induction count with
  | zero => intro i last r k h1 h2; omega
  | succ count ih =>
      intro i last r k h1 h2 hk hall hnone
      by_cases hik : k = i
      · subst hik
        rw [rxInitGo, hnone, if_neg (by omega), if_pos rfl]
        have : k - k = 0 := by omega
        rw [this]
        rfl
      · have hi : (alloc i).isSome = true := hall i le_rfl (by omega)
        rcases ha : alloc i with _ | a
        · rw [ha] at hi; cases hi
        · rw [rxInitGo, ha]
          show rxInitGo alloc count (i + 1) i (rxInstall r i a) = _
          rw [ih (i + 1) i (rxInstall r i a) k (by omega) (by omega) hk
              (fun j hj1 hj2 => hall j (by omega) hj2) hnone]
          have h1' : rxInstallAll alloc (k - i) i r =
              rxInstallAll alloc (k - (i + 1)) (i + 1) (rxInstall r i ((alloc i).getD 0)) := by
            obtain ⟨m, hm⟩ : ∃ m, k - i = m + 1 := ⟨k - i - 1, by omega⟩
            rw [hm]
            have hm2 : k - (i + 1) = m := by omega
            rw [hm2]
            rfl
          have h2' : (if k = i + 1 then i else k - 1) = k - 1 := by
            split <;> omega
          rw [h1', ha, h2', if_neg hik]
          simp

/-- C9: RX ring initialisation allocates one buffer per slot in index
order; if the very first allocation fails it panics; if allocation fails
at a later slot `k` it stops there, leaves slots `0..k-1` populated and
the rest empty, and sets `next_tail_idx = k % N`; if all N allocations
succeed every slot is populated and `next_tail_idx = 0` (one past slot
`N - 1`, modulo N). -/
theorem c9_rx_init (n : Nat) (alloc : Nat → Option Nat) (hn : 2 ≤ n) :
    (alloc 0 = none → RDesRing.init n alloc = none) ∧
    (∀ k, 1 ≤ k → k < n → (∀ j, j < k → (alloc j).isSome = true) →
      alloc k = none →
      ∃ r, RDesRing.init n alloc = some r ∧ r.next_tail_idx = k % n ∧
        (∀ j, j < k → r.buffers j = alloc j) ∧
        (∀ j, k ≤ j → r.buffers j = none)) ∧
    ((∀ j, j < n → (alloc j).isSome = true) →
      ∃ r, RDesRing.init n alloc = some r ∧ r.next_tail_idx = 0 ∧
        ∀ j, j < n → r.buffers j = alloc j) := by
  have hn1 : ¬ (n ≤ 1) := by omega
  refine ⟨?_, ?_, ?_⟩
  · intro h0
    rw [RDesRing.init, if_neg hn1,
      rxInitGo_fail_zero alloc n 0 (RDesRing.fresh n) (by omega) h0]
    rfl
  · intro k hk1 hkn hall hknone
    rw [RDesRing.init, if_neg hn1,
      rxInitGo_fail alloc n 0 0 (RDesRing.fresh n) k (by omega) (by omega) hk1
        (fun j _ hj => hall j hj) hknone]
    rw [Nat.sub_zero, if_neg (by omega : ¬ k = 0)]
    refine ⟨_, rfl, ?_, ?_, ?_⟩
    · show ((k - 1 + 1) % n) = k % n
      congr 1
      omega
    · intro j hj
      show (rxInstallAll alloc k 0 (RDesRing.fresh n)).buffers j = alloc j
      rw [rxInstallAll_buffers, if_pos ⟨Nat.zero_le j, by omega⟩]
      rcases hja : alloc j with _ | a
      · have := hall j hj
        rw [hja] at this
        cases this
      · rfl
    · intro j hj
      show (rxInstallAll alloc k 0 (RDesRing.fresh n)).buffers j = none
      rw [rxInstallAll_buffers, if_neg (by omega)]
      rfl
  · intro hall
    rw [RDesRing.init, if_neg hn1,
      rxInitGo_all alloc n 0 0 (RDesRing.fresh n) (fun j _ hj => hall j (by omega))]
    rw [if_neg (by omega : ¬ n = 0)]
    refine ⟨_, rfl, ?_, ?_⟩
    · show ((0 + n - 1 + 1) % n) = 0
      have hsum : 0 + n - 1 + 1 = n := by omega
      rw [hsum, Nat.mod_self]
    · intro j hj
      show (rxInstallAll alloc n 0 (RDesRing.fresh n)).buffers j = alloc j
      rw [rxInstallAll_buffers, if_pos ⟨Nat.zero_le j, by omega⟩]
      rcases hja : alloc j with _ | a
      · have := hall j hj
        rw [hja] at this
        cases this
      · rfl

/-- The allocation oracle used to witness `c9_rx_init`: slots 0 and 1
get buffers, slot 2 fails. -/
def rxAllocDemo : Nat → Option Nat :=
  fun j => if j < 2 then some (0x30000000 + j) else none

/-- C9 (witness): initialisation of a 4-slot ring whose pool runs dry
after two buffers: slots 0 and 1 populated, `next_tail_idx = 2`. -/
theorem c9_rx_init_witness :
    ∃ r, RDesRing.init 4 rxAllocDemo = some r ∧ r.next_tail_idx = 2 % 4 ∧
      (∀ j, j < 2 → r.buffers j = rxAllocDemo j) ∧
      (∀ j, 2 ≤ j → r.buffers j = none) :=
  (c9_rx_init 4 rxAllocDemo (by decide)).2.1 2 (by decide) (by decide)
    (by decide) (by decide)
